import Mathlib

/-!
Verification of the segmented-downloader core of `scripts/wget/wget.py`.

The Python functions under scrutiny are embedded shallowly: pure helpers
become Lean functions over `List Char` / `Nat` / `Int` / `ℚ`, persisted JSON
records become an inductive `JsonVal`, and the stateful parts of
`download_multi` / `main` become pure decision functions over explicit state
records, with the concurrent worker phase abstracted as an oracle giving the
error count and the cancellation flag observed when the run finishes.

Python-specific semantics that matter here are modelled faithfully:
`isinstance(x, int)` is true for `bool` values (bool subclasses int),
`bool(x)` is truthiness, `int()` on a non-negative float truncates, and
Python's `float(...)` of a plain decimal literal is modelled by the exact
rational value (all concrete values used in proofs are exactly
representable, so no rounding is lost).
-/

/-! ## Character and list helpers -/

/-- A single-quote character, built numerically. -/
def squote : Char := Char.ofNat 39

/-- A double-quote character, built numerically. -/
def dquote : Char := Char.ofNat 34

/-- Characters removed by Python `str.strip()` (ASCII whitespace). -/
def isPySpace (c : Char) : Bool :=
  c.toNat = 32 || c.toNat = 9 || c.toNat = 10 || c.toNat = 13 ||
  c.toNat = 11 || c.toNat = 12

/-- `str.strip()` on a character list. -/
def trimList (cs : List Char) : List Char :=
  ((cs.dropWhile isPySpace).reverse.dropWhile isPySpace).reverse

/-- `str.split(sep)` on a character list (single-character separator). -/
def splitOnChar (sep : Char) : List Char → List (List Char)
  | [] => [[]]
  | c :: rest =>
    let r := splitOnChar sep rest
    if c = sep then [] :: r
    else
      match r with
      | [] => [[c]]
      | h :: t => (c :: h) :: t

/-- Value of a decimal digit string, as computed by Python `int(text)`. -/
def digitsToNat (cs : List Char) : Nat :=
  cs.foldl (fun a c => a * 10 + (c.toNat - 48)) 0

/-- ASCII hex digit test (as accepted by `urllib.parse.unquote`). -/
def isHexDigit (c : Char) : Bool :=
  c.isDigit || (65 ≤ c.toNat && c.toNat ≤ 70) || (97 ≤ c.toNat && c.toNat ≤ 102)

/-- Value of an ASCII hex digit. -/
def hexDigitVal (c : Char) : Nat :=
  if c.isDigit then c.toNat - 48
  else if c.toNat ≤ 70 then c.toNat - 55
  else c.toNat - 87

/-! ## JSON values (what `json.load` can hand to `load_parts`) -/

/-- A parsed JSON document, as produced by Python `json.load`: JSON `true` /
`false` become Python `bool`, integers become `int`, other numbers `float`
(held here as an exact rational), arrays become lists and objects dicts
(field list, later duplicate keys override earlier ones on lookup). -/
inductive JsonVal where
  | null : JsonVal
  | bool (b : Bool) : JsonVal
  | int (n : Int) : JsonVal
  | float (q : ℚ) : JsonVal
  | str (s : String) : JsonVal
  | arr (items : List JsonVal) : JsonVal
  | obj (fields : List (String × JsonVal)) : JsonVal

/-- Python dict lookup on a JSON object (last duplicate key wins, matching
`json.load`). -/
def dictGet (fields : List (String × JsonVal)) (k : String) : Option JsonVal :=
  fields.reverse.lookup k

/-- Python `isinstance(v, int)`: true for `int` AND for `bool`, because
Python's `bool` is a subclass of `int`. -/
def pyIsInt : JsonVal → Bool
  | .int _ => true
  | .bool _ => true
  | _ => false

/-- Numeric value of an `int`-like Python value (`True` counts as 1). -/
def asInt : JsonVal → Int
  | .int n => n
  | .bool b => if b then 1 else 0
  | _ => 0

/-- Python truthiness `bool(v)` of a JSON-derived value. -/
def truthy : JsonVal → Bool
  | .null => false
  | .bool b => b
  | .int n => n != 0
  | .float q => q != 0
  | .str s => !s.data.isEmpty
  | .arr l => !l.isEmpty
  | .obj l => !l.isEmpty

/-! ## `load_parts` (wget.py lines 182-209) -/

/-- The record `load_parts` returns: the numeric `total_size`, the numeric
`segment_size` when the field is present, and the normalised ranges
`[start, end, bool(done)]`.  Numeric fields keep Python's numeric view of
int-or-bool values. -/
structure PartsRecord where
  totalSize : Int
  segmentSize : Option Int
  ranges : List (Int × Int × Bool)

/-- The validation loop over `data["ranges"]` in `load_parts`: each item must
be a 3-element list whose first two entries are `isinstance(_, int)` with
`start >= 0` and `end >= start`; `done` is coerced with `bool(...)`.  Any bad
item makes the whole load return `None`. -/
def loadRanges : List JsonVal → Option (List (Int × Int × Bool))
  | [] => some []
  | item :: rest =>
    match item with
    | .arr [s, e, d] =>
      if pyIsInt s && pyIsInt e && !(asInt s < 0) && !(asInt e < asInt s) then
        (loadRanges rest).map (fun tl => (asInt s, asInt e, truthy d) :: tl)
      else none
    | _ => none

/-- `load_parts`, applied to the parsed JSON document (I/O and JSON-decode
failures, which also yield `None` in Python, are outside this function). -/
def load_parts (v : JsonVal) : Option PartsRecord :=
  match v with
  | .obj fields =>
    match dictGet fields ("total_size"), dictGet fields ("ranges") with
    | some ts, some rv =>
      if pyIsInt ts then
        if (match dictGet fields ("segment_size") with
            | some sv => pyIsInt sv
            | none => true) then
          match rv with
          | .arr items =>
            (loadRanges items).map
              (fun rs =>
                ⟨asInt ts, (dictGet fields ("segment_size")).map asInt, rs⟩)
          | _ => none
        else none
      else none
    | _, _ => none
  | _ => none

/-- One range element as the claim (and spec) words it: a 3-element list
whose `start` and `end` are JSON integers (not booleans), `start ≥ 0`,
`end ≥ start`. -/
def specRangeOk (item : JsonVal) : Bool :=
  match item with
  | .arr [.int s, .int e, _] => !(s < 0) && !(e < s)
  | _ => false

/-- A well-formed record as the claim words it: a JSON object with an
integer `total_size`, a list `ranges` of well-formed range elements, and an
integer `segment_size` when that field is present.  "Integer" here is the
spec's notion: a JSON integer, not a boolean. -/
def specWellFormed (v : JsonVal) : Bool :=
  match v with
  | .obj fields =>
    (match dictGet fields ("total_size") with
     | some (.int _) => true
     | _ => false) &&
    (match dictGet fields ("segment_size") with
     | some (.int _) => true
     | none => true
     | _ => false) &&
    (match dictGet fields ("ranges") with
     | some (.arr items) => items.all specRangeOk
     | _ => false)
  | _ => false

/-- A record that `load_parts` actually accepts: like `specWellFormed` but
with Python's `isinstance(_, int)` notion of integer, which also admits
booleans. -/
def pyRangeOk (item : JsonVal) : Bool :=
  match item with
  | .arr [s, e, _] => pyIsInt s && pyIsInt e && !(asInt s < 0) && !(asInt e < asInt s)
  | _ => false

/-- Acceptance condition of `load_parts` with Python's bool-as-int
semantics. -/
def pyWellFormed (v : JsonVal) : Bool :=
  match v with
  | .obj fields =>
    (match dictGet fields ("total_size") with
     | some ts => pyIsInt ts
     | none => false) &&
    (match dictGet fields ("segment_size") with
     | some sv => pyIsInt sv
     | none => true) &&
    (match dictGet fields ("ranges") with
     | some (.arr items) => items.all pyRangeOk
     | _ => false)
  | _ => false

/-! ## `build_ranges` (wget.py lines 219-227) -/

/-- The `while start < total_size` loop of `build_ranges`.  The loop in the
source advances `start` by the clamped segment size (≥ 1) per iteration, so
it runs at most `total_size` times; the `fuel` argument is that bound and is
always supplied as `total_size`. -/
def buildRangesGo (total seg : Nat) : Nat → Nat → List (Nat × Nat)
  | _, 0 => []
  | start, fuel + 1 =>
    if start < total then
      (start, min (total - 1) (start + seg - 1)) ::
        buildRangesGo total seg (min (total - 1) (start + seg - 1) + 1) fuel
    else []

/-- `max(1, min(int(segment_size), total_size))`. -/
def clampSegment (totalSize : Nat) (segmentSize : Int) : Nat :=
  (max 1 (min segmentSize (totalSize : Int))).toNat

/-- `build_ranges(total_size, segment_size)`. -/
def build_ranges (totalSize : Nat) (segmentSize : Int) : List (Nat × Nat) :=
  buildRangesGo totalSize (clampSegment totalSize segmentSize) 0 totalSize

/-! ## `parse_size` (wget.py lines 365-403) -/

/-- The accumulation loop of `parse_size`: digits and dots go to the number,
alphabetic characters to the unit, spaces and underscores are skipped, and
any other character raises `ValueError` (here: `none`). -/
def collectNumUnit : List Char → Option (List Char × List Char)
  | [] => some ([], [])
  | c :: rest =>
    match collectNumUnit rest with
    | none => none
    | some (num, unit) =>
      if c.isDigit || c = '.' then some (c :: num, unit)
      else if c.isAlpha then some (num, c :: unit)
      else if c = ' ' || c = '_' then some (num, unit)
      else none

/-- Python `float("".join(number))` for a string of digits and dots: at most
one dot and at least one digit, else `ValueError`.  The exact value
`mantissa / 10 ^ scale` is returned as the pair `(mantissa, scale)` (the
concrete values proved about are exactly representable as doubles, so the
exact decimal agrees with CPython's float here). -/
def parseDecimal (num : List Char) : Option (Nat × Nat) :=
  let ip := num.takeWhile (fun c => c != '.')
  match num.dropWhile (fun c => c != '.') with
  | [] => if num.isEmpty then none else some (digitsToNat num, 0)
  | _ :: frac =>
    if frac.contains '.' || (ip.isEmpty && frac.isEmpty) then none
    else some (digitsToNat ip * 10 ^ frac.length + digitsToNat frac, frac.length)

/-- The binary multiplier table of `parse_size`. -/
def sizeMultiplier (u : List Char) : Option Nat :=
  if u = "k".data || u = "kb".data then some 1024
  else if u = "m".data || u = "mb".data then some (1024 * 1024)
  else if u = "g".data || u = "gb".data then some (1024 * 1024 * 1024)
  else none

/-- `parse_size` applied to a string value (the `None` / `int` short-circuit
branches of the Python function do not arise for CLI input).  `none` stands
for `ValueError`.  `int(float(number) * mult)` truncates the non-negative
value `mantissa * mult / 10 ^ scale`, which is exactly natural division. -/
def parse_size (value : String) : Option Int :=
  let text := trimList value.data
  if text.isEmpty then none
  else if text.all Char.isDigit then some (digitsToNat text)
  else
    match collectNumUnit text with
    | none => none
    | some (num, unit) =>
      if num.isEmpty then none
      else
        let unitText := unit.map Char.toLower
        let unitText :=
          if unitText.getLast? = some 'b' &&
             !(unitText = "kb".data || unitText = "mb".data || unitText = "gb".data) then
            unitText.dropLast
          else unitText
        match sizeMultiplier unitText with
        | none => none
        | some m =>
          (parseDecimal num).map
            (fun p => ((p.1 * m / 10 ^ p.2 : Nat) : Int))

/-- `main`'s handling of `--segment-size` (wget.py lines 1409-1416): a
`ValueError` from `parse_size`, or a non-positive result, becomes exit code
2; otherwise the parsed size is used. -/
def mainSegmentSize (s : String) : Except Nat Int :=
  match parse_size s with
  | none => .error 2
  | some n => if n ≤ 0 then .error 2 else .ok n

/-! ## `os.path.basename` / `urllib.parse.unquote` -/

/-- POSIX `os.path.basename`: the suffix after the last `/`. -/
def basenameList (cs : List Char) : List Char :=
  (cs.reverse.takeWhile (fun c => c != '/')).reverse

/-- UTF-8 decoding of a byte list with U+FFFD replacement on malformed
input, as `bytes.decode("utf-8", errors="replace")` (replacement granularity
on malformed multi-byte prefixes is simplified to one replacement per bad
leading byte; all inputs arising in the proofs are well-formed). -/
def utf8DecodeGo : Nat → List Nat → List Char
  | 0, _ => []
  | _ + 1, [] => []
  | fuel + 1, b :: rest =>
    if b < 128 then Char.ofNat b :: utf8DecodeGo fuel rest
    else if 194 ≤ b && b ≤ 223 then
      match rest with
      | b2 :: rest2 =>
        if 128 ≤ b2 && b2 ≤ 191 then
          Char.ofNat ((b - 192) * 64 + (b2 - 128)) :: utf8DecodeGo fuel rest2
        else Char.ofNat 65533 :: utf8DecodeGo fuel rest
      | [] => [Char.ofNat 65533]
    else if 224 ≤ b && b ≤ 239 then
      match rest with
      | b2 :: b3 :: rest3 =>
        let v := (b - 224) * 4096 + (b2 - 128) * 64 + (b3 - 128)
        if 128 ≤ b2 && b2 ≤ 191 && 128 ≤ b3 && b3 ≤ 191 &&
           2048 ≤ v && !(55296 ≤ v && v ≤ 57343) then
          Char.ofNat v :: utf8DecodeGo fuel rest3
        else Char.ofNat 65533 :: utf8DecodeGo fuel rest
      | _ => [Char.ofNat 65533]
    else if 240 ≤ b && b ≤ 244 then
      match rest with
      | b2 :: b3 :: b4 :: rest4 =>
        let v := (b - 240) * 262144 + (b2 - 128) * 4096 + (b3 - 128) * 64 + (b4 - 128)
        if 128 ≤ b2 && b2 ≤ 191 && 128 ≤ b3 && b3 ≤ 191 && 128 ≤ b4 && b4 ≤ 191 &&
           65536 ≤ v && v ≤ 1114111 then
          Char.ofNat v :: utf8DecodeGo fuel rest4
        else Char.ofNat 65533 :: utf8DecodeGo fuel rest
      | _ => [Char.ofNat 65533]
    else Char.ofNat 65533 :: utf8DecodeGo fuel rest

/-- UTF-8 decoding, fuelled by the byte count (each step consumes at least
one byte). -/
def utf8Decode (bs : List Nat) : List Char :=
  utf8DecodeGo bs.length bs

/-- Collect a maximal run of `%XX` escapes (both `X` hex) into bytes,
returning the bytes and the remaining input, as `unquote` does between
literal characters. -/
def takePercentBytes : List Char → List Nat × List Char
  | '%' :: h1 :: h2 :: rest =>
    if isHexDigit h1 && isHexDigit h2 then
      let (bs, r) := takePercentBytes rest
      ((hexDigitVal h1 * 16 + hexDigitVal h2) :: bs, r)
    else ([], '%' :: h1 :: h2 :: rest)
  | cs => ([], cs)

/-- The scan of `urllib.parse.unquote`: each maximal `%XX` run is decoded as
UTF-8 (errors replaced); other characters, including `%` not followed by two
hex digits, pass through.  `fuel` is the input length (each step consumes at
least one character). -/
def unquoteGo : Nat → List Char → List Char
  | 0, _ => []
  | _ + 1, [] => []
  | fuel + 1, c :: cs =>
    if c = '%' then
      match takePercentBytes (c :: cs) with
      | ([], _) => c :: unquoteGo fuel cs
      | (bs, r) => utf8Decode bs ++ unquoteGo fuel r
    else c :: unquoteGo fuel cs

/-- `urllib.parse.unquote` (default utf-8 / replace). -/
def unquote (s : String) : String :=
  ⟨unquoteGo s.data.length s.data⟩

/-! ## `urllib.parse.urlsplit` — path component -/

/-- Leading/trailing characters stripped by `urlsplit` (C0 controls and
space). -/
def isC0OrSpace (c : Char) : Bool := c.toNat ≤ 32

/-- Tab, CR and LF are removed everywhere by `urlsplit`. -/
def isTabCrLf (c : Char) : Bool := c.toNat = 9 || c.toNat = 13 || c.toNat = 10

/-- Characters allowed in a URL scheme. -/
def isSchemeChar (c : Char) : Bool :=
  c.isAlpha || c.isDigit || c = '+' || c = '-' || c = '.'

/-- The `path` component of `urllib.parse.urlsplit(url)`: strip unsafe
characters, strip a valid `scheme:`, strip a `//netloc` up to the first of
`/?#`, then cut at the fragment `#` and the query `?`. -/
def urlsplitPathList (url : List Char) : List Char :=
  let cs := ((url.dropWhile isC0OrSpace).reverse.dropWhile isC0OrSpace).reverse
  let cs := cs.filter (fun c => !isTabCrLf c)
  let afterScheme :=
    if cs.contains ':' then
      let pre := cs.takeWhile (fun c => c != ':')
      match pre.head? with
      | some c0 =>
        if c0.toNat ≤ 127 && c0.isAlpha && pre.all isSchemeChar then
          cs.drop (pre.length + 1)
        else cs
      | none => cs
    else cs
  let afterNetloc :=
    match afterScheme with
    | '/' :: '/' :: rest =>
      rest.dropWhile (fun c => !(c = '/' || c = '?' || c = '#'))
    | other => other
  (afterNetloc.takeWhile (fun c => c != '#')).takeWhile (fun c => c != '?')

/-- `urlsplit(url).path` as a string. -/
def urlsplitPath (url : String) : String :=
  ⟨urlsplitPathList url.data⟩

/-- `urlsplit(url).path or "/"` (an empty path is falsy). -/
def pathOrSlash (url : String) : List Char :=
  let p := urlsplitPathList url.data
  if p.isEmpty then ['/'] else p

/-! ## `safe_filename_from_url` (wget.py lines 468-473) -/

/-- `safe_filename_from_url(url)`: basename of the URL path; empty, `"."`
and `".."` fall back to `index.html`; the surviving name is URL-decoded.
Note the order in the source: the dot-check happens BEFORE `unquote`. -/
def safe_filename_from_url (url : String) : String :=
  let name := basenameList (urlsplitPathList url.data)
  if name.isEmpty || name = ['.'] || name = ['.', '.'] then ("index.html")
  else ⟨unquoteGo name.length name⟩

/-! ## `base_path_for_no_parent` / `path_within_base` (wget.py lines 133-145) -/

/-- `path.rsplit("/", 1)[0]`: everything before the last `/` (the whole
string when there is no `/`). -/
def rsplitBeforeLastSlash (cs : List Char) : List Char :=
  if cs.contains '/' then
    (((cs.reverse.dropWhile (fun c => c != '/'))).drop 1).reverse
  else cs

/-- First fixup of `base_path_for_no_parent`: keep directory paths, cut a
final filename otherwise (`path.rsplit("/", 1)[0] + "/"`). -/
def basePathDir (path : List Char) : List Char :=
  if path.getLast? = some '/' then path
  else rsplitBeforeLastSlash path ++ ['/']

/-- Second fixup: ensure a leading `/`. -/
def basePathRooted (path : List Char) : List Char :=
  if path.head? = some '/' then path
  else '/' :: path

/-- `base_path_for_no_parent(url)`. -/
def base_path_for_no_parent (url : String) : String :=
  ⟨basePathRooted (basePathDir (pathOrSlash url))⟩

/-- `path_within_base(url, base_path)`. -/
def path_within_base (url : String) (basePath : String) : Bool :=
  basePath.data.isPrefixOf (pathOrSlash url)

/-! ## `filename_from_content_disposition` (wget.py lines 497-521) -/

/-- Strip one pair of surrounding double quotes, as the parameter loop does
(`val[1:-1]` when the value both starts and ends with a quote). -/
def stripDQuotes (cs : List Char) : List Char :=
  if cs.head? = some dquote && cs.getLast? = some dquote then (cs.drop 1).dropLast
  else cs

/-- Insert one `key=value` part into the parameter dict: parts without `=`
are skipped, keys are trimmed and lowercased, values trimmed and
quote-stripped; a later occurrence of a key overrides an earlier one. -/
def cdParamInsert (params : List (List Char × List Char)) (part : List Char) :
    List (List Char × List Char) :=
  if part.contains '=' then
    let key := (trimList (part.takeWhile (fun c => c != '='))).map Char.toLower
    let v := stripDQuotes (trimList ((part.dropWhile (fun c => c != '=')).drop 1))
    params ++ [(key, v)]
  else params

/-- Python-dict lookup in the parameter list (last insertion wins). -/
def paramGet (params : List (List Char × List Char)) (k : List Char) :
    Option (List Char) :=
  params.foldl (fun acc p => if p.1 = k then some p.2 else acc) none

/-- `value.partition("''")`: split at the first occurrence of two single
quotes, or `none` when absent. -/
def splitTwoSQuotes : List Char → Option (List Char × List Char)
  | [] => none
  | [_] => none
  | a :: b :: rest =>
    if a = squote && b = squote then some ([], rest)
    else (splitTwoSQuotes (b :: rest)).map (fun p => (a :: p.1, p.2))

/-- `filename_from_content_disposition(value)`. -/
def filename_from_content_disposition (value : String) : Option String :=
  if value.data.isEmpty then none
  else
    let parts := ((splitOnChar ';' value.data).map trimList).filter
      (fun p => !p.isEmpty)
    if parts.length < 2 then none
    else
      let params := (parts.drop 1).foldl cdParamInsert []
      match paramGet params ("filename*".data) with
      | some v =>
        match splitTwoSQuotes v with
        | some (_, encoded) => some ⟨basenameList (unquoteGo encoded.length encoded)⟩
        | none => some ⟨basenameList (unquoteGo v.length v)⟩
      | none =>
        match paramGet params ("filename".data) with
        | some v => some ⟨basenameList v⟩
        | none => none

/-- The literal header `attachment; filename*=UTF-8''caf%C3%A9.txt` (built
with explicit quote characters). -/
def cdExampleHeader : String :=
  ⟨"attachment; filename*=UTF-8".data ++ [squote, squote] ++ "caf%C3%A9.txt".data⟩

/-! ## The auto-threads controller (wget.py lines 856-1001) -/

/-- Controller state between measurement windows. -/
structure AutoState where
  current : Nat
  baseline : Nat
  baselineRate : Option ℚ

/-- `min_threads = max(1, int(min_threads))`. -/
def autoMn (minThreads : Int) : Nat := (max 1 minThreads).toNat

/-- `max_threads = max(min_threads, int(max_threads))`. -/
def autoMx (minThreads maxThreads : Int) : Nat :=
  (max (max 1 minThreads) maxThreads).toNat

/-- Initial controller state:
`current_threads = min(max_threads, max(min_threads, int(threads)))`,
`baseline_threads = current_threads`, `baseline_rate = None`. -/
def autoInitState (minThreads maxThreads threads : Int) : AutoState :=
  let c := (min (max (max 1 minThreads) maxThreads) (max (max 1 minThreads) threads)).toNat
  ⟨c, c, none⟩

/-- One decision step of the controller, taken after a measurement window
with `errorsDelta` new errors and measured rate `rate` (the numeric type of
the rate only feeds boolean comparisons, so the exact rational stands in for
Python's float). -/
def autoStep (mn mx : Nat) (gain : ℚ) (st : AutoState)
    (errorsDelta : Nat) (rate : ℚ) : AutoState :=
  if 0 < errorsDelta then
    -- errors: decrement baseline (not below min), follow it.
    if mn < st.baseline then ⟨st.baseline - 1, st.baseline - 1, st.baselineRate⟩
    else ⟨st.baseline, st.baseline, st.baselineRate⟩
  else
    match st.baselineRate with
    | none =>
      -- adopt the measurement as baseline, probe +1 when below max.
      if st.current < mx then ⟨st.current + 1, st.current, some rate⟩
      else ⟨st.current, st.current, some rate⟩
    | some br =>
      if st.current = st.baseline then
        -- at baseline: probe +1, else probe -1 when above min.
        if st.baseline < mx then ⟨st.baseline + 1, st.baseline, some br⟩
        else if mn < st.baseline then ⟨st.baseline - 1, st.baseline, some br⟩
        else ⟨st.current, st.baseline, some br⟩
      else
        -- a probe just ran: accept on sufficient gain, else step back.
        if (if br ≤ 0 then decide (0 < rate)
            else decide (br * (1 + gain) ≤ rate)) then
          if st.current < mx then ⟨st.current + 1, st.current, some rate⟩
          else ⟨st.current, st.current, some rate⟩
        else
          if st.baseline < st.current then
            if mn < st.baseline then ⟨st.baseline - 1, st.baseline, some br⟩
            else ⟨st.baseline, st.baseline, some br⟩
          else ⟨st.baseline, st.baseline, some br⟩

/-- The controller run over a sequence of measurement windows, each giving
an error delta and a rate. -/
def autoRun (minThreads maxThreads threads : Int) (gain : ℚ)
    (windows : List (Nat × ℚ)) : AutoState :=
  windows.foldl
    (fun st w => autoStep (autoMn minThreads) (autoMx minThreads maxThreads) gain st w.1 w.2)
    (autoInitState minThreads maxThreads threads)

/-- The bound invariant of the controller. -/
def AutoInv (mn mx : Nat) (st : AutoState) : Prop :=
  mn ≤ st.current ∧ st.current ≤ mx ∧ mn ≤ st.baseline ∧ st.baseline ≤ mx

/-! ## `download_multi` (wget.py lines 756-1049) and its caller -/

/-- Observable outcome of one `download_multi` run.  The worker phase is
abstracted by the oracle `(errors, cancelled)`: the number of entries the
workers appended to the error list and the cancellation flag observed when
the function finishes.  A run that never starts workers (zero size, or plan
already complete) has an empty error list, and — because SIGINT raises
`KeyboardInterrupt` in the main thread, so a run entered with the flag set
never reaches a `return` — finishes with the flag unset. -/
structure MultiResult where
  emptyFileCreated : Bool
  planSaved : Bool
  planRemoved : Bool
  finalErrors : Nat
  finalCancelled : Bool
  returnValue : Bool
  tempEnsured : Bool

/-- Plan adoption on resume (wget.py lines 781-793): an existing plan is
loaded and kept only when its `total_size` equals the probed one (Python's
`!=` on int-like values is numeric). -/
def multiLoadedPlan (totalSize : Nat) (resume : Bool) (diskPlan : Option JsonVal) :
    Option PartsRecord :=
  if resume then
    match diskPlan with
    | some v =>
      match load_parts v with
      | some rec => if rec.totalSize = (totalSize : Int) then some rec else none
      | none => none
    | none => none
  else none

/-- The ranges in effect after plan adoption (lines 795-803): the adopted
plan's ranges, or a fresh all-undone plan built by `build_ranges`. -/
def multiRanges (totalSize : Nat) (segmentSize : Int) (resume : Bool)
    (diskPlan : Option JsonVal) : List (Int × Int × Bool) :=
  match multiLoadedPlan totalSize resume diskPlan with
  | some rec => rec.ranges
  | none => (build_ranges totalSize segmentSize).map
      (fun (p : Nat × Nat) => ((p.1 : Int), (p.2 : Int), false))

/-- The pending queue (lines 805-809): ranges with `done == False`. -/
def multiPending (totalSize : Nat) (segmentSize : Int) (resume : Bool)
    (diskPlan : Option JsonVal) : List (Int × Int × Bool) :=
  (multiRanges totalSize segmentSize resume diskPlan).filter
    (fun (r : Int × Int × Bool) => r.2.2 = false)

/-- `download_multi` as a state function.  `diskPlan` is the parsed content
of the `.parts` file when it exists, `outputSize` the size of the output
file when it exists.  The file-length adjustment (lines 835-853) only
rewrites `done` flags after the early-complete check and does not change any
field observed here. -/
def downloadMultiModel (totalSize : Nat) (threads segmentSize : Int)
    (resume : Bool) (diskPlan : Option JsonVal) (outputSize : Option Nat)
    (errors : Nat) (cancelled : Bool) : MultiResult :=
  if totalSize = 0 then
    -- lines 774-777: truncate the output to empty, return True; the plan
    -- path has not even been computed yet.
    { emptyFileCreated := true, planSaved := false, planRemoved := false,
      finalErrors := 0, finalCancelled := false, returnValue := true,
      tempEnsured := true }
  else if (multiPending totalSize segmentSize resume diskPlan).isEmpty then
    -- lines 810-815: already complete; remove the plan (it exists: either
    -- it was adopted from disk or was just saved), return True.  No worker
    -- ran, so the error list is empty and the cancellation flag unset.
    { emptyFileCreated := false,
      planSaved := (multiLoadedPlan totalSize resume diskPlan).isNone,
      planRemoved := true,
      finalErrors := 0, finalCancelled := false, returnValue := true,
      tempEnsured := outputSize.isSome }
  else
    -- worker phase ran; the output file was created/extended to
    -- `total_size` (lines 835-845), then lines 1038-1049 decide.
    { emptyFileCreated := false,
      planSaved := (multiLoadedPlan totalSize resume diskPlan).isNone,
      planRemoved := (errors == 0) && !cancelled,
      finalErrors := errors, finalCancelled := cancelled,
      returnValue := if cancelled then false else errors == 0,
      tempEnsured := true }

/-- `finalize_download(temp, final)` (wget.py lines 175-179): renames and
returns True only when the temp file exists. -/
def finalize_download (tempExists : Bool) : Bool := tempExists

/-- The caller (`main`, wget.py lines 1633-1636): the temp file is renamed
to the final path iff `success and finalize_download(temp_path, final_path)`. -/
def callerRenames (success tempExists : Bool) : Bool :=
  success && finalize_download tempExists

/-! ## `main`'s per-URL decision pipeline (wget.py lines 1463-1631) -/

/-- The CLI flags the pipeline consults. -/
structure MainFlags where
  timestamping : Bool
  continueDownload : Bool
  overwrite : Bool
  autoThreads : Bool
  threads : Int

/-- Local filesystem state for one URL (paths resolved: plan, temp, final). -/
structure DiskState where
  partsExists : Bool
  tempExists : Bool
  tempSize : Nat
  finalExists : Bool
  finalSize : Nat
  finalMtime : ℚ

/-- Probe outcome for one URL. -/
structure ProbeInfo where
  totalSize : Option Int
  supportsRange : Bool
  lastModifiedTs : Option ℚ

/-- What `main` decides to do for one URL. -/
inductive MainAction where
  | notModified
  | resumeMulti
  | resumeSingleTemp
  | skipAlreadyComplete
  | resumeSingleFinal
  | cannotResume
  | partialRefuse
  | existsRefuse
  | fetchMulti
  | fetchSingle
deriving DecidableEq

/-- Python truthiness of the optional probed size (`None` and `0` falsy). -/
def optSizeTruthy : Option Int → Bool
  | some n => n != 0
  | none => false

/-- Value of the probed size under a truthiness guard. -/
def optSizeVal : Option Int → Int
  | some n => n
  | none => 0

/-- Python truthiness of the parsed `Last-Modified` timestamp: `None` AND
the float `0.0` are falsy. -/
def optTsTruthy : Option ℚ → Bool
  | some t => t != 0
  | none => false

/-- Timestamp value under a truthiness guard. -/
def optTsVal : Option ℚ → ℚ
  | some t => t
  | none => 0

/-- `--overwrite` removes all three files before the other checks. -/
def overwriteDisk (f : MainFlags) (d : DiskState) : DiskState :=
  if f.overwrite then
    { d with partsExists := false, tempExists := false, finalExists := false }
  else d

/-- The ordered decision chain of `main` for one URL, after `fetch_info`:
`--overwrite` deletions, the `-N` gate, the `-c` resume ladder, the refusal
checks, then the multi/single dispatch. -/
def mainUrlAction (f : MainFlags) (d0 : DiskState) (p : ProbeInfo) : MainAction :=
  let d := overwriteDisk f d0
  if f.timestamping && optTsTruthy p.lastModifiedTs && d.finalExists &&
     decide (optTsVal p.lastModifiedTs ≤ d.finalMtime) then .notModified
  else if f.continueDownload && d.partsExists && p.supportsRange &&
          optSizeTruthy p.totalSize then .resumeMulti
  else if f.continueDownload && d.tempExists && p.supportsRange &&
          decide (0 < d.tempSize) then .resumeSingleTemp
  else if f.continueDownload && d.finalExists && p.supportsRange &&
          optSizeTruthy p.totalSize then
    if decide (optSizeVal p.totalSize ≤ (d.finalSize : Int)) then .skipAlreadyComplete
    else .resumeSingleFinal
  else if f.continueDownload && !p.supportsRange &&
          (d.partsExists || d.tempExists || d.finalExists) then
    if d.finalExists && optSizeTruthy p.totalSize &&
       decide (optSizeVal p.totalSize ≤ (d.finalSize : Int)) then .skipAlreadyComplete
    else .cannotResume
  else if !f.continueDownload && !f.overwrite && (d.partsExists || d.tempExists) then
    .partialRefuse
  else if !f.continueDownload && !f.overwrite && d.finalExists then
    if optSizeTruthy p.totalSize &&
       decide (optSizeVal p.totalSize ≤ (d.finalSize : Int)) then .skipAlreadyComplete
    else .existsRefuse
  else if p.supportsRange && optSizeTruthy p.totalSize &&
          (decide (1 < max f.threads 1) || f.autoThreads) then .fetchMulti
  else .fetchSingle

/-- Actions that open a connection and transfer body bytes. -/
def actionFetches : MainAction → Bool
  | .resumeMulti => true
  | .resumeSingleTemp => true
  | .resumeSingleFinal => true
  | .fetchMulti => true
  | .fetchSingle => true
  | _ => false

/-- The per-URL decision chain of `recursive_download` (wget.py lines
1121-1312), for a URL that has already passed the seen-set, same-host and
no-parent filters.  The checks are the same as `main`'s, but in a DIFFERENT
order: the `-c` resume ladder (lines 1129-1243) runs BEFORE the `-N` gate
(lines 1245-1252). -/
def recursiveUrlAction (f : MainFlags) (d0 : DiskState) (p : ProbeInfo) :
    MainAction :=
  let d := overwriteDisk f d0
  if f.continueDownload && d.partsExists && p.supportsRange &&
     optSizeTruthy p.totalSize then .resumeMulti
  else if f.continueDownload && d.tempExists && p.supportsRange &&
          decide (0 < d.tempSize) then .resumeSingleTemp
  else if f.continueDownload && d.finalExists && p.supportsRange &&
          optSizeTruthy p.totalSize then
    if decide (optSizeVal p.totalSize ≤ (d.finalSize : Int)) then .skipAlreadyComplete
    else .resumeSingleFinal
  else if f.continueDownload && !p.supportsRange &&
          (d.partsExists || d.tempExists || d.finalExists) then
    if d.finalExists && optSizeTruthy p.totalSize &&
       decide (optSizeVal p.totalSize ≤ (d.finalSize : Int)) then .skipAlreadyComplete
    else .cannotResume
  else if f.timestamping && optTsTruthy p.lastModifiedTs && d.finalExists &&
          decide (optTsVal p.lastModifiedTs ≤ d.finalMtime) then .notModified
  else if !f.continueDownload && !f.overwrite && (d.partsExists || d.tempExists) then
    .partialRefuse
  else if !f.continueDownload && !f.overwrite && d.finalExists then
    if optSizeTruthy p.totalSize &&
       decide (optSizeVal p.totalSize ≤ (d.finalSize : Int)) then .skipAlreadyComplete
    else .existsRefuse
  else if p.supportsRange && optSizeTruthy p.totalSize &&
          (decide (1 < max f.threads 1) || f.autoThreads) then .fetchMulti
  else .fetchSingle

/-- The condition under which `recursive_download`'s `-c` resume ladder
intercepts a URL before the `-N` gate is reached: the disjunction of the
four rung guards of lines 1130, 1162, 1190 and 1226 (`d` is the state after
`--overwrite` deletions).  It is always false when `-c` is unset. -/
def recursiveResumeIntercept (f : MainFlags) (d : DiskState) (p : ProbeInfo) :
    Bool :=
  (f.continueDownload && d.partsExists && p.supportsRange &&
     optSizeTruthy p.totalSize) ||
  (f.continueDownload && d.tempExists && p.supportsRange &&
     decide (0 < d.tempSize)) ||
  (f.continueDownload && d.finalExists && p.supportsRange &&
     optSizeTruthy p.totalSize) ||
  (f.continueDownload && !p.supportsRange &&
     (d.partsExists || d.tempExists || d.finalExists))

/-- The record `{"total_size": true, "ranges": []}` used to probe
`load_parts` against the claim's notion of integer fields. -/
def c3BadRecord : JsonVal :=
  .obj [("total_size", .bool true), ("ranges", .arr [])]

/-! ## Helper lemmas -/

theorem buildRangesGo_stop (total seg start fuel : Nat) (h : total ≤ start) :
    buildRangesGo total seg start fuel = [] := by
  cases fuel with
  | zero => rfl
  | succ n => simp [buildRangesGo, Nat.not_lt.mpr h]

theorem buildRangesGo_spec (total seg : Nat) (hs : 1 ≤ seg) :
    ∀ fuel start, start < total → total - start ≤ fuel →
      ((buildRangesGo total seg start fuel).head?.map Prod.fst = some start) ∧
      ((buildRangesGo total seg start fuel).getLast?.map Prod.snd = some (total - 1)) ∧
      (∀ p ∈ buildRangesGo total seg start fuel, p.1 ≤ p.2) ∧
      (buildRangesGo total seg start fuel).Chain'
        (fun a b => b.1 = a.2 + 1) ∧
      (((buildRangesGo total seg start fuel).map (fun p => p.2 - p.1 + 1)).sum
        = total - start) ∧
      (∀ p ∈ (buildRangesGo total seg start fuel).dropLast, p.2 - p.1 + 1 = seg) ∧
      (∀ p ∈ buildRangesGo total seg start fuel, p.2 - p.1 + 1 ≤ seg) := by
  intro fuel
  induction fuel with
  | zero => intro start hlt hfuel; omega
  | succ n ih =>
    intro start hlt hfuel
    have hB : buildRangesGo total seg start (n + 1)
        = (start, min (total - 1) (start + seg - 1)) ::
            buildRangesGo total seg (min (total - 1) (start + seg - 1) + 1) n := by
      simp [buildRangesGo, hlt]
    set e := min (total - 1) (start + seg - 1) with he
    by_cases hcase : e + 1 < total
    · have he2 : e = start + seg - 1 := by omega
      obtain ⟨h1, h2, h3, h4, h5, h6, h7⟩ := ih (e + 1) hcase (by omega)
      rcases htail : buildRangesGo total seg (e + 1) n with _ | ⟨p0, t'⟩
      · rw [htail] at h1; simp at h1
      · rw [htail] at h1 h2 h3 h4 h5 h6 h7
        have hp0 : p0.1 = e + 1 := by simpa using h1
        rw [hB, htail]
        refine ⟨by simp, ?_, ?_, ?_, ?_, ?_, ?_⟩
        · rw [List.getLast?_cons_cons]; exact h2
        · intro p hp
          rcases List.mem_cons.mp hp with rfl | hp'
          · simp; omega
          · exact h3 p hp'
        · rw [List.chain'_cons]
          exact ⟨by simpa using hp0, h4⟩
        · rw [List.map_cons, List.sum_cons, h5]
          simp
          omega
        · rw [List.dropLast_cons₂]
          intro p hp
          rcases List.mem_cons.mp hp with rfl | hp'
          · simp; omega
          · exact h6 p hp'
        · intro p hp
          rcases List.mem_cons.mp hp with rfl | hp'
          · simp; omega
          · exact h7 p hp'
    · have he3 : e = total - 1 := by omega
      have htail : buildRangesGo total seg (e + 1) n = [] :=
        buildRangesGo_stop total seg (e + 1) n (by omega)
      rw [hB, htail]
      refine ⟨by simp, by simp [he3], ?_, by simp, ?_, by simp, ?_⟩
      · intro p hp
        rcases List.mem_cons.mp hp with rfl | hp'
        · simp; omega
        · simp at hp'
      · simp; omega
      · intro p hp
        rcases List.mem_cons.mp hp with rfl | hp'
        · simp; omega
        · simp at hp'

theorem chain_head_lt :
    ∀ (t : List (Nat × Nat)) (a : Nat × Nat),
      (a :: t).Chain' (fun x y => y.1 = x.2 + 1) →
      (∀ p ∈ a :: t, p.1 ≤ p.2) →
      ∀ b ∈ t, a.2 < b.1 := by
  intro t
  induction t with
  | nil => simp
  | cons c t' ih =>
    intro a hc hb b hbmem
    rw [List.chain'_cons] at hc
    rcases List.mem_cons.mp hbmem with rfl | hb'
    · omega
    · have hlt := ih c hc.2 (fun p hp => hb p (List.mem_cons_of_mem _ hp)) b hb'
      have hcc : c.1 ≤ c.2 := hb c (by simp)
      omega

theorem chain_to_pairwise (l : List (Nat × Nat))
    (hc : l.Chain' (fun a b => b.1 = a.2 + 1))
    (hb : ∀ p ∈ l, p.1 ≤ p.2) :
    l.Pairwise (fun a b => a.2 < b.1) := by
  induction l with
  | nil => simp
  | cons a t ih =>
    rw [List.chain'_cons'] at hc
    refine List.Pairwise.cons ?_
      (ih hc.2 (fun p hp => hb p (List.mem_cons_of_mem _ hp)))
    exact chain_head_lt t a (List.chain'_cons'.mpr hc) hb

/-! ## Claim theorems -/

/-- C1: for every `total_size > 0` and every `segment_size`, `build_ranges`
clamps the segment size into `[1, total_size]` and returns a non-empty list
of ranges whose first start is 0 and last end is `total_size - 1`, with
every `start ≤ end`, adjacent ranges contiguous (hence sorted and pairwise
disjoint), every range except possibly the last of length exactly the
clamped segment size, no range longer than it, and segment lengths summing
to `total_size`. -/
theorem build_ranges_spec (total : Nat) (seg : Int) (h : 0 < total) :
    (1 ≤ clampSegment total seg ∧ clampSegment total seg ≤ total) ∧
    (build_ranges total seg).head?.map Prod.fst = some 0 ∧
    (build_ranges total seg).getLast?.map Prod.snd = some (total - 1) ∧
    (∀ p ∈ build_ranges total seg, p.1 ≤ p.2) ∧
    (build_ranges total seg).Chain' (fun a b => b.1 = a.2 + 1) ∧
    (build_ranges total seg).Pairwise (fun a b => a.2 < b.1) ∧
    (∀ p ∈ (build_ranges total seg).dropLast,
        p.2 - p.1 + 1 = clampSegment total seg) ∧
    (∀ p ∈ build_ranges total seg, p.2 - p.1 + 1 ≤ clampSegment total seg) ∧
    ((build_ranges total seg).map (fun p => p.2 - p.1 + 1)).sum = total := by
  have hseg : 1 ≤ clampSegment total seg := by
    unfold clampSegment; omega
  have hle : clampSegment total seg ≤ total := by
    unfold clampSegment; omega
  obtain ⟨h1, h2, h3, h4, h5, h6, h7⟩ :=
    buildRangesGo_spec total (clampSegment total seg) hseg total 0 h (by omega)
  refine ⟨⟨hseg, hle⟩, h1, h2, h3, h4, chain_to_pairwise _ h4 h3, h6, h7, ?_⟩
  simpa using h5

/-- Witness for C1 at `total_size = 10`, `segment_size = 3`. -/
theorem build_ranges_spec_witness :
    (0 : Nat) < 10 ∧ (1 ≤ clampSegment 10 3 ∧ clampSegment 10 3 ≤ 10) :=
  ⟨by decide, (build_ranges_spec 10 3 (by decide)).1⟩

/-- C2: a `download_multi` run that finishes with a non-empty error list or
with the cancellation flag set does not delete the plan file and returns
false, so the caller never renames the temp file; a run that finishes with
the pending queue empty, no errors and no cancellation deletes the plan file
and returns true, after which the caller renames the temp file (the rename
is performed by `finalize_download`, which requires the temp file to exist —
it always does once the worker phase has run). -/
theorem download_multi_completion (totalSize : Nat) (threads segmentSize : Int)
    (resume : Bool) (diskPlan : Option JsonVal) (outputSize : Option Nat)
    (errors : Nat) (cancelled : Bool) :
    (((downloadMultiModel totalSize threads segmentSize resume diskPlan
        outputSize errors cancelled).finalErrors ≠ 0 ∨
      (downloadMultiModel totalSize threads segmentSize resume diskPlan
        outputSize errors cancelled).finalCancelled = true) →
      (downloadMultiModel totalSize threads segmentSize resume diskPlan
        outputSize errors cancelled).planRemoved = false ∧
      (downloadMultiModel totalSize threads segmentSize resume diskPlan
        outputSize errors cancelled).returnValue = false ∧
      callerRenames
        (downloadMultiModel totalSize threads segmentSize resume diskPlan
          outputSize errors cancelled).returnValue
        (downloadMultiModel totalSize threads segmentSize resume diskPlan
          outputSize errors cancelled).tempEnsured = false) ∧
    (0 < totalSize →
      (downloadMultiModel totalSize threads segmentSize resume diskPlan
        outputSize errors cancelled).finalErrors = 0 →
      (downloadMultiModel totalSize threads segmentSize resume diskPlan
        outputSize errors cancelled).finalCancelled = false →
      (downloadMultiModel totalSize threads segmentSize resume diskPlan
        outputSize errors cancelled).planRemoved = true ∧
      (downloadMultiModel totalSize threads segmentSize resume diskPlan
        outputSize errors cancelled).returnValue = true ∧
      ((downloadMultiModel totalSize threads segmentSize resume diskPlan
          outputSize errors cancelled).tempEnsured = true →
        callerRenames
          (downloadMultiModel totalSize threads segmentSize resume diskPlan
            outputSize errors cancelled).returnValue
          (downloadMultiModel totalSize threads segmentSize resume diskPlan
            outputSize errors cancelled).tempEnsured = true)) := by
  by_cases h0 : totalSize = 0
  · subst h0
    constructor
    · intro hcon
      simp [downloadMultiModel] at hcon
    · intro hpos
      omega
  · by_cases hp : (multiPending totalSize segmentSize resume diskPlan).isEmpty
    · constructor
      · intro hcon
        simp [downloadMultiModel, h0, hp] at hcon
      · intro _ _ _
        refine ⟨by simp [downloadMultiModel, h0, hp], by simp [downloadMultiModel, h0, hp], ?_⟩
        intro hte
        simp [downloadMultiModel, h0, hp, callerRenames, finalize_download] at hte ⊢
        exact hte
    · constructor
      · intro hcon
        simp only [downloadMultiModel, h0, hp, if_neg, if_false] at hcon ⊢
        simp at hcon
        rcases hcon with he | hc
        · rcases Bool.eq_false_or_eq_true cancelled with hct | hcf
          · simp [hct, callerRenames, finalize_download]
          · simp [hcf, he, callerRenames, finalize_download]
        · simp [hc, callerRenames, finalize_download]
      · intro _ he hc
        simp only [downloadMultiModel, h0, hp, if_neg, if_false] at he hc ⊢
        simp at he hc
        simp [he, hc, callerRenames, finalize_download]

/-- Witness for C2: a cancelled one-byte run keeps the plan and returns
false, and a clean one-byte run removes it and returns true. -/
theorem download_multi_completion_witness :
    (downloadMultiModel 1 4 1 false none none 0 true).planRemoved = false ∧
    (downloadMultiModel 1 4 1 false none none 0 true).returnValue = false ∧
    callerRenames (downloadMultiModel 1 4 1 false none none 0 true).returnValue
      (downloadMultiModel 1 4 1 false none none 0 true).tempEnsured = false :=
  (download_multi_completion 1 4 1 false none none 0 true).1 (Or.inr (by decide))

/-- C9: with `total_size = 0`, `download_multi` truncates the output file to
empty, never creates a plan file, and returns true, for every thread count,
segment size and resume/plan/file configuration. -/
theorem download_multi_zero_total (threads segmentSize : Int) (resume : Bool)
    (diskPlan : Option JsonVal) (outputSize : Option Nat)
    (errors : Nat) (cancelled : Bool) :
    (downloadMultiModel 0 threads segmentSize resume diskPlan outputSize
      errors cancelled).emptyFileCreated = true ∧
    (downloadMultiModel 0 threads segmentSize resume diskPlan outputSize
      errors cancelled).planSaved = false ∧
    (downloadMultiModel 0 threads segmentSize resume diskPlan outputSize
      errors cancelled).planRemoved = false ∧
    (downloadMultiModel 0 threads segmentSize resume diskPlan outputSize
      errors cancelled).returnValue = true :=
  ⟨rfl, rfl, rfl, rfl⟩


/-- The ranges loop accepts exactly the lists all of whose items pass the
Python-side range check. -/
theorem loadRanges_isSome (items : List JsonVal) :
    (loadRanges items).isSome = items.all pyRangeOk := by
  induction items with
  | nil => rfl
  | cons item rest ih =>
    rcases item with _ | b | n | q | s | l | o <;>
      try simp [loadRanges, pyRangeOk]
    rcases l with _ | ⟨a, l⟩
    · simp [loadRanges, pyRangeOk]
    rcases l with _ | ⟨b2, l⟩
    · simp [loadRanges, pyRangeOk]
    rcases l with _ | ⟨c2, l⟩
    · simp [loadRanges, pyRangeOk]
    rcases l with _ | ⟨d2, l⟩
    · simp only [loadRanges, List.all_cons]
      split
      · rename_i hcond
        simp [pyRangeOk, ih, hcond]
      · rename_i hcond
        simp [pyRangeOk, hcond]
    · simp [loadRanges, pyRangeOk]

/-- Every range the loop returns satisfies `0 ≤ start ≤ end`. -/
theorem loadRanges_sound (items : List JsonVal) :
    ∀ rs, loadRanges items = some rs → ∀ r ∈ rs, 0 ≤ r.1 ∧ r.1 ≤ r.2.1 := by
  induction items with
  | nil =>
    intro rs h r hr
    injection h with h2
    subst h2
    simp at hr
  | cons item rest ih =>
    intro rs h r hr
    rcases item with _ | b | n | q | s | l | o
    · simp [loadRanges] at h
    · simp [loadRanges] at h
    · simp [loadRanges] at h
    · simp [loadRanges] at h
    · simp [loadRanges] at h
    · rcases l with _ | ⟨a, l⟩
      · simp [loadRanges] at h
      rcases l with _ | ⟨b2, l⟩
      · simp [loadRanges] at h
      rcases l with _ | ⟨c2, l⟩
      · simp [loadRanges] at h
      rcases l with _ | ⟨d2, l⟩
      · simp only [loadRanges] at h
        split at h
        · rename_i hcond
          rw [Option.map_eq_some'] at h
          obtain ⟨tl, htl, hrs⟩ := h
          subst hrs
          rcases List.mem_cons.mp hr with rfl | hr'
          · simp only [Bool.and_eq_true, Bool.not_eq_true', decide_eq_false_iff_not,
              not_lt] at hcond
            simp
            omega
          · exact ih tl htl r hr'
        · simp at h
      · simp [loadRanges] at h
    · simp [loadRanges] at h

/-- `load_parts` accepts exactly the records accepted by the Python-side
well-formedness condition. -/
theorem load_parts_isSome (v : JsonVal) :
    (load_parts v).isSome = pyWellFormed v := by
  rcases v with _ | b | n | q | s | l | fields <;> try rfl
  simp only [load_parts, pyWellFormed]
  cases hts : dictGet fields ("total_size") with
  | none => simp
  | some ts =>
    cases hrv : dictGet fields ("ranges") with
    | none => simp
    | some rv =>
      by_cases hti : pyIsInt ts = true
      · simp only [hti, if_true, Bool.true_and]
        cases hseg : dictGet fields ("segment_size") with
        | none =>
          simp only [Bool.true_and]
          rcases rv with _ | b | n | q | s2 | items | o <;>
            simp [Option.isSome_map, loadRanges_isSome]
        | some sv =>
          by_cases hsi : pyIsInt sv = true
          · simp only [hsi, if_true, Bool.true_and]
            rcases rv with _ | b | n | q | s2 | items | o <;>
              simp [Option.isSome_map, loadRanges_isSome]
          · simp [hsi]
      · simp [hti]

/-- The ranges of every record `load_parts` accepts were built by
`loadRanges`. -/
theorem load_parts_ranges_sound (v : JsonVal) (rec : PartsRecord)
    (h : load_parts v = some rec) : ∀ r ∈ rec.ranges, 0 ≤ r.1 ∧ r.1 ≤ r.2.1 := by
  rcases v with _ | b | n | q | s | l | fields <;> try simp [load_parts] at h
  revert h
  cases hts : dictGet fields ("total_size") with
  | none => intro h; simp at h
  | some ts =>
    cases hrv : dictGet fields ("ranges") with
    | none => intro h; simp at h
    | some rv =>
      intro h
      by_cases hti : pyIsInt ts = true
      case neg => simp [hti] at h
      simp only [hti, if_true] at h
      by_cases hsi :
        (match dictGet fields ("segment_size") with
         | some sv => pyIsInt sv
         | none => true) = true
      case neg => simp [hsi] at h
      simp only [hsi, if_true] at h
      rcases rv with _ | b | n | q | s2 | items | o <;> simp at h
      obtain ⟨rs, hrs, hrec⟩ := h
      subst hrec
      intro r hr
      exact loadRanges_sound items rs hrs r hr


/-- C3, counterexample: the record `{"total_size": true, "ranges": []}` has
a non-integer (boolean) `total_size`, so the claim requires `load_parts` to
reject it, yet `load_parts` accepts it: Python's `isinstance(True, int)` is
true because `bool` subclasses `int`. -/
theorem load_parts_claim_counterexample :
    specWellFormed c3BadRecord = false ∧ (load_parts c3BadRecord).isSome = true := by
  decide

/-- C3, amended: `load_parts` returns `None` for every record that is not a
JSON object with an `isinstance(_, int)` `total_size` (booleans count as
integers, as Python's `isinstance` admits `bool`), a list of well-formed
range triples (same notion of integer, `start ≥ 0`, `end ≥ start`), and an
`isinstance(_, int)` `segment_size` when present; and every range of an
accepted record satisfies `0 ≤ start ≤ end` with a boolean `done` field. -/
theorem load_parts_amended :
    (∀ v : JsonVal, pyWellFormed v = false → load_parts v = none) ∧
    (∀ (v : JsonVal) (rec : PartsRecord), load_parts v = some rec →
      ∀ r ∈ rec.ranges, 0 ≤ r.1 ∧ r.1 ≤ r.2.1 ∧ (r.2.2 = true ∨ r.2.2 = false)) := by
  constructor
  · intro v hwf
    have hs := load_parts_isSome v
    rw [hwf] at hs
    exact Option.not_isSome_iff_eq_none.mp (by simp [hs])
  · intro v rec h r hr
    obtain ⟨h1, h2⟩ := load_parts_ranges_sound v rec h r hr
    exact ⟨h1, h2, Bool.eq_false_or_eq_true r.2.2⟩

/-- Witness for C3's amended theorem: a non-object document is rejected. -/
theorem load_parts_amended_witness :
    load_parts (.str ("x")) = none :=
  load_parts_amended.1 (.str ("x")) (by decide)

/-- A decimal digit is not stripped by `str.strip()`. -/
theorem isDigit_not_pySpace (c : Char) (h : c.isDigit = true) :
    isPySpace c = false := by
  simp only [Char.isDigit, Bool.and_eq_true, decide_eq_true_eq] at h
  obtain ⟨h1, h2⟩ := h
  have h1' : (48 : Nat) ≤ c.val.toNat := h1
  have h2' : c.val.toNat ≤ 57 := h2
  simp [isPySpace, Char.toNat]
  omega

/-- `str.strip()` leaves a string without strippable characters unchanged. -/
theorem trimList_eq_self (cs : List Char) (h : ∀ c ∈ cs, isPySpace c = false) :
    trimList cs = cs := by
  unfold trimList
  have h1 : cs.dropWhile isPySpace = cs := by
    cases cs with
    | nil => rfl
    | cons c rest => rw [List.dropWhile_cons_of_neg (by simp [h c (by simp)])]
  rw [h1]
  have h2 : cs.reverse.dropWhile isPySpace = cs.reverse := by
    cases hrv : cs.reverse with
    | nil => rfl
    | cons c rest =>
      rw [List.dropWhile_cons_of_neg]
      simp [h c (by rw [← List.mem_reverse, hrv]; simp)]
  rw [h2, List.reverse_reverse]

/-- Bare digit strings are taken by the `text.isdigit()` branch. -/
theorem parse_size_digits (s : String) (h1 : s.data ≠ [])
    (h2 : s.data.all Char.isDigit = true) :
    parse_size s = some (digitsToNat s.data) := by
  have hall : ∀ c ∈ s.data, isPySpace c = false := fun c hc =>
    isDigit_not_pySpace c (List.all_eq_true.mp h2 c hc)
  have hne : s.data.isEmpty = false := by simpa using h1
  unfold parse_size
  rw [trimList_eq_self s.data hall]
  simp [hne, h2]

/-- C4: `parse_size` maps every bare digit string to that integer number of
bytes; decimal numbers with (case-insensitive) suffix `K`/`KB`, `M`/`MB`,
`G`/`GB` are scaled by the binary multiplier, giving `512K ↦ 524288`,
`1.5M ↦ 1572864`, `1GB ↦ 1073741824`; and an unparsable value such as
`"abc"` is a `ValueError` which `main` turns into exit code 2. -/
theorem parse_size_spec :
    (∀ s : String, s.data ≠ [] → s.data.all Char.isDigit = true →
        parse_size s = some (digitsToNat s.data)) ∧
    parse_size ("512K") = some 524288 ∧
    parse_size ("512k") = some 524288 ∧
    parse_size ("1.5M") = some 1572864 ∧
    parse_size ("1GB") = some 1073741824 ∧
    parse_size ("1gb") = some 1073741824 ∧
    mainSegmentSize ("abc") = .error 2 :=
  ⟨parse_size_digits, by decide, by decide, by decide, by decide, by decide,
    rfl⟩

/-- Witness for C4 at the bare digit string `"42"`. -/
theorem parse_size_spec_witness :
    parse_size ("42") = some (digitsToNat ("42").data) :=
  parse_size_spec.1 ("42") (by decide) (by decide)

/-- C5 (the code bug): `safe_filename_from_url` checks for `"."` and `".."`
BEFORE URL-decoding, so the URL `http://h/%2E%2E` makes it return `".."`,
which both the spec and the claim say is never returned. -/
theorem safe_filename_returns_dotdot :
    safe_filename_from_url ("http://h/%2E%2E") = ".." := by decide

/-- A basename never contains a path separator. -/
theorem basenameList_no_slash (cs : List Char) : ('/' : Char) ∉ basenameList cs := by
  intro hmem
  unfold basenameList at hmem
  rw [List.mem_reverse] at hmem
  have := List.mem_takeWhile_imp hmem
  simp at this

/-- C6: `filename_from_content_disposition` parses the header parameters,
handles RFC 5987 `filename*` (URL-decoding the part after `''`), decodes
`attachment; filename*=UTF-8''caf%C3%A9.txt` to `café.txt`, returns `None`
for a header without parameters, and every returned name is a bare basename
(it never contains `/`). -/
theorem content_disposition_spec :
    filename_from_content_disposition cdExampleHeader = some ("café.txt") ∧
    filename_from_content_disposition ("attachment") = none ∧
    (∀ (v s : String), filename_from_content_disposition v = some s →
      ('/' : Char) ∉ s.data) := by
  refine ⟨by decide, by decide, ?_⟩
  intro v s h
  simp only [filename_from_content_disposition] at h
  split at h
  · exact absurd h (by simp)
  · split at h
    · exact absurd h (by simp)
    · split at h
      · split at h
        · obtain rfl := (Option.some.inj h).symm
          exact basenameList_no_slash _
        · obtain rfl := (Option.some.inj h).symm
          exact basenameList_no_slash _
      · split at h
        · obtain rfl := (Option.some.inj h).symm
          exact basenameList_no_slash _
        · exact absurd h (by simp)

/-- Witness for C6: the decoded example filename contains no separator. -/
theorem content_disposition_spec_witness :
    ('/' : Char) ∉ ("café.txt" : String).data :=
  content_disposition_spec.2.2 cdExampleHeader ("café.txt")
    content_disposition_spec.1

/-- One controller step keeps both thread counters inside `[mn, mx]`. -/
theorem autoStep_preserves (mn mx : Nat) (gain : ℚ) (st : AutoState)
    (e : Nat) (r : ℚ) (hInv : AutoInv mn mx st) :
    AutoInv mn mx (autoStep mn mx gain st e r) := by
  obtain ⟨h1, h2, h3, h4⟩ := hInv
  unfold AutoInv autoStep
  repeat' split
  all_goals refine ⟨?_, ?_, ?_, ?_⟩ <;> simp <;> omega

/-- The initial controller state satisfies the invariant. -/
theorem autoInit_inv (minT maxT threads : Int) (h1 : 1 ≤ minT) (h2 : minT ≤ maxT) :
    AutoInv (autoMn minT) (autoMx minT maxT) (autoInitState minT maxT threads) := by
  unfold AutoInv autoMn autoMx autoInitState
  refine ⟨?_, ?_, ?_, ?_⟩ <;> simp <;> omega

/-- C7: with `1 ≤ min_threads ≤ max_threads`, the auto-threads controller
satisfies `min_threads ≤ current_threads ≤ max_threads` (and the same for
`baseline_threads`) at the start of every measurement window and after every
decision step — error-driven decrements and downward probes included —
whatever error counts and rates the windows report; `current_threads` is
never set below `min_threads`. -/
theorem auto_threads_invariant (minT maxT threads : Int) (gain : ℚ)
    (h1 : 1 ≤ minT) (h2 : minT ≤ maxT) (windows : List (Nat × ℚ)) :
    AutoInv (autoMn minT) (autoMx minT maxT)
      (autoRun minT maxT threads gain windows) := by
  unfold autoRun
  have H : ∀ (ws : List (Nat × ℚ)) (st : AutoState),
      AutoInv (autoMn minT) (autoMx minT maxT) st →
      AutoInv (autoMn minT) (autoMx minT maxT)
        (ws.foldl
          (fun st w => autoStep (autoMn minT) (autoMx minT maxT) gain st w.1 w.2)
          st) := by
    intro ws
    induction ws with
    | nil => intro st h; exact h
    | cons w rest ih =>
      intro st h
      exact ih _ (autoStep_preserves _ _ gain st w.1 w.2 h)
  exact H windows _ (autoInit_inv minT maxT threads h1 h2)

/-- Witness for C7: two windows (one clean, one with an error) starting from
4 threads in `[1, 8]`. -/
theorem auto_threads_invariant_witness :
    AutoInv (autoMn 1) (autoMx 1 8)
      (autoRun 1 8 4 (1 / 20) [(0, 5), (1, 3)]) :=
  auto_threads_invariant 1 8 4 (1 / 20) (by decide) (by decide) [(0, 5), (1, 3)]

/-- C8, counterexample: the claim fails in two ways.  (1) With
`Last-Modified` parsing to exactly the epoch, `last_modified_ts and ...`
treats the float `0.0` as falsy: with `-N -c`, a 5-byte final file with
mtime 0 and a server reporting 10 bytes, `main` resumes the download.
(2) In `recursive_download` the `-c` resume ladder runs BEFORE the `-N`
gate: with `-r -c -N`, a `.parts` file present, a final file with mtime 9
and a server reporting 10 bytes with timestamp 5 (non-zero, ≤ mtime), the
ladder fires and body bytes are transferred, never reaching the gate. -/
theorem timestamping_claim_counterexample :
    (mainUrlAction ⟨true, true, false, false, 1⟩ ⟨false, false, 0, true, 5, 0⟩
        ⟨some 10, true, some 0⟩ ≠ .notModified ∧
      actionFetches
        (mainUrlAction ⟨true, true, false, false, 1⟩ ⟨false, false, 0, true, 5, 0⟩
          ⟨some 10, true, some 0⟩) = true) ∧
    (recursiveUrlAction ⟨true, true, false, false, 1⟩ ⟨true, false, 0, true, 5, 9⟩
        ⟨some 10, true, some 5⟩ ≠ .notModified ∧
      actionFetches
        (recursiveUrlAction ⟨true, true, false, false, 1⟩ ⟨true, false, 0, true, 5, 9⟩
          ⟨some 10, true, some 5⟩) = true) := by
  decide

/-- C8, amended: when `-N` is set, the server's `Last-Modified` parses to a
NON-ZERO timestamp, and the final file exists (after `--overwrite` handling)
with modification time at least the server timestamp, the URL is skipped as
not modified with no body transfer: unconditionally in `main` (its `-N` gate
precedes the `-c` ladder), and in `recursive_download` provided the `-c`
resume ladder — which there runs before the `-N` gate — does not intercept
the URL (it never does when `-c` is unset). -/
theorem timestamping_amended (f : MainFlags) (d0 : DiskState) (p : ProbeInfo)
    (t : ℚ) (hT : f.timestamping = true) (hts : p.lastModifiedTs = some t)
    (ht0 : t ≠ 0) (hex : (overwriteDisk f d0).finalExists = true)
    (hm : t ≤ (overwriteDisk f d0).finalMtime) :
    (mainUrlAction f d0 p = .notModified ∧
      actionFetches (mainUrlAction f d0 p) = false) ∧
    (recursiveResumeIntercept f (overwriteDisk f d0) p = false →
      recursiveUrlAction f d0 p = .notModified ∧
      actionFetches (recursiveUrlAction f d0 p) = false) := by
  have hact : mainUrlAction f d0 p = .notModified := by
    unfold mainUrlAction
    simp [hT, hts, hex, hm, ht0, optTsTruthy, optTsVal]
  refine ⟨⟨hact, by rw [hact]; rfl⟩, ?_⟩
  intro hni
  simp only [recursiveResumeIntercept, Bool.or_eq_false_iff] at hni
  obtain ⟨⟨⟨h1, h2⟩, h3⟩, h4⟩ := hni
  have hact2 : recursiveUrlAction f d0 p = .notModified := by
    unfold recursiveUrlAction
    simp only [h1, h2, h3, h4]
    simp [hT, hts, hex, hm, ht0, optTsTruthy, optTsVal]
  exact ⟨hact2, by rw [hact2]; rfl⟩

/-- Witness for C8's amended theorem: `-N` without `-c`, server timestamp 5,
local mtime 7 — both pipelines skip. -/
theorem timestamping_amended_witness :
    mainUrlAction ⟨true, false, false, false, 1⟩ ⟨false, false, 0, true, 5, 7⟩
        ⟨some 10, true, some 5⟩ = .notModified ∧
    recursiveUrlAction ⟨true, false, false, false, 1⟩ ⟨false, false, 0, true, 5, 7⟩
        ⟨some 10, true, some 5⟩ = .notModified := by
  have h := timestamping_amended ⟨true, false, false, false, 1⟩
    ⟨false, false, 0, true, 5, 7⟩ ⟨some 10, true, some 5⟩ 5
    rfl rfl (by norm_num) rfl (by norm_num [overwriteDisk])
  exact ⟨h.1.1, (h.2 (by decide)).1⟩

/-- If a list contains `/`, dropping its longest slash-free prefix reaches
a `/`. -/
theorem dropWhile_slash (l : List Char) (h : ('/' : Char) ∈ l) :
    ∃ t, l.dropWhile (fun c => c != '/') = '/' :: t := by
  induction l with
  | nil => simp at h
  | cons c rest ih =>
    by_cases hc : c = '/'
    · subst hc
      exact ⟨rest, by rw [List.dropWhile_cons_of_neg (by simp)]⟩
    · have hm : ('/' : Char) ∈ rest := by
        rcases List.mem_cons.mp h with h1 | h1
        · exact absurd h1.symm hc
        · exact h1
      obtain ⟨t, ht⟩ := ih hm
      exact ⟨t, by rw [List.dropWhile_cons_of_pos (by simp [hc])]; exact ht⟩

/-- `rsplit("/", 1)` decomposition: a path containing `/` is the part before
the last slash, the slash, and a slash-free tail. -/
theorem rsplit_decomp (cs : List Char) (h : ('/' : Char) ∈ cs) :
    ∃ t, cs = rsplitBeforeLastSlash cs ++ '/' :: t := by
  have hrev : ('/' : Char) ∈ cs.reverse := by simpa using h
  obtain ⟨t, ht⟩ := dropWhile_slash cs.reverse hrev
  refine ⟨(cs.reverse.takeWhile (fun c => c != '/')).reverse, ?_⟩
  unfold rsplitBeforeLastSlash
  rw [if_pos (by simpa using h)]
  rw [ht]
  conv_lhs =>
    rw [← List.reverse_reverse cs,
      ← List.takeWhile_append_dropWhile (p := fun c => c != '/') (l := cs.reverse)]
  rw [ht]
  simp

/-- C10: for every URL whose (urlsplit) path is empty or begins with `/`,
`path_within_base(url, base_path_for_no_parent(url))` holds — a start URL is
never excluded by the `-np` base path derived from itself. -/
theorem no_parent_self_base (url : String)
    (h : urlsplitPath url = "" ∨ (urlsplitPath url).data.head? = some '/') :
    path_within_base url (base_path_for_no_parent url) = true := by
  rcases h with hemp | hhead
  · have hp : pathOrSlash url = ['/'] := by
      unfold pathOrSlash
      have hz : urlsplitPathList url.data = [] := congrArg String.data hemp
      simp [hz]
    unfold path_within_base base_path_for_no_parent basePathDir basePathRooted
    rw [hp]
    decide
  · have hne' : urlsplitPathList url.data ≠ [] := by
      intro he
      have : (urlsplitPath url).data.head? = none := by
        show (urlsplitPathList url.data).head? = none
        simp [he]
      rw [hhead] at this
      exact Option.noConfusion this
    have hp : pathOrSlash url = urlsplitPathList url.data := by
      unfold pathOrSlash
      simp [hne']
    have hph : (pathOrSlash url).head? = some '/' := by
      rw [hp]; exact hhead
    unfold path_within_base base_path_for_no_parent basePathDir basePathRooted
    by_cases hLast : (pathOrSlash url).getLast? = some '/'
    · rw [if_pos hLast, if_pos hph]
      simp
    · rw [if_neg hLast]
      have hmem : ('/' : Char) ∈ pathOrSlash url := by
        cases hcons : pathOrSlash url with
        | nil => rw [hcons] at hph; exact Option.noConfusion hph
        | cons a t =>
          rw [hcons] at hph
          simp at hph
          rw [hph]
          exact List.mem_cons_self _ _
      obtain ⟨t0, hdec⟩ := rsplit_decomp (pathOrSlash url) hmem
      have hhead2 :
          (rsplitBeforeLastSlash (pathOrSlash url) ++ ['/']).head? = some '/' := by
        cases hrs : rsplitBeforeLastSlash (pathOrSlash url) with
        | nil => simp
        | cons a t =>
          have ha : (pathOrSlash url).head? = some a := by
            rw [hdec, hrs]; simp
          rw [hph] at ha
          simp at ha
          simp [ha.symm]
      rw [if_pos hhead2]
      show (rsplitBeforeLastSlash (pathOrSlash url) ++ ['/']).isPrefixOf
        (pathOrSlash url) = true
      rw [List.isPrefixOf_iff_prefix]
      refine ⟨t0, ?_⟩
      conv_rhs => rw [hdec]
      simp

/-- Witness for C10 at `http://h/a/b` (path `/a/b`, base `/a/`). -/
theorem no_parent_self_base_witness :
    path_within_base ("http://h/a/b") (base_path_for_no_parent ("http://h/a/b")) = true :=
  no_parent_self_base ("http://h/a/b") (Or.inr (by decide))
